import Mathlib

set_option maxHeartbeats 1000000

/-- Question type enum from the Prisma schema. -/
inductive QuestionType
  | SINGLE_CHOICE
  | MULTIPLE_CHOICE
deriving DecidableEq

/-- One choice row as selected by the submit route: id and correctness flag. -/
structure Choice where
  id : String
  isCorrect : Bool
deriving DecidableEq

/-- One question with its choices, as fetched by the submit route. -/
structure Question where
  id : String
  type : QuestionType
  choices : List Choice
deriving DecidableEq

/-- One element of the request body answers array of save and submit. -/
structure AnswerEntry where
  questionId : String
  choiceIds : List String
deriving DecidableEq

def invalidQuestionMsg : String := "Invalid questionId."

def invalidChoiceMsg : String := "Invalid choiceId."

def emptyQuizMsg : String := "Quiz has no questions."

def questionNotFoundMsg : String := "Question not found."

/-- The submitted choice set of an entry: deduplicated, falsy (empty) ids dropped. -/
def submittedSet (choiceIds : List String) : Finset String :=
  (choiceIds.filter (fun c => decide (c ≠ ""))).toFinset

/-- The ids of all choices belonging to a question. -/
def validChoiceIds (q : Question) : Finset String :=
  (q.choices.map (fun c => c.id)).toFinset

/-- The ids of the choices flagged correct for a question. -/
def correctSet (q : Question) : Finset String :=
  ((q.choices.filter (fun c => c.isCorrect)).map (fun c => c.id)).toFinset

/-- The per-question correctness decision of the submit route. In the
SINGLE_CHOICE branch the loop body runs exactly once because the submitted
set has exactly one element, so checking that element equals checking all. -/
def isCorrectAnswer (t : QuestionType) (submitted correct : Finset String) : Bool :=
  match t with
  | .SINGLE_CHOICE =>
    if submitted.card ≠ 1 then false
    else decide (submitted ⊆ correct) && decide (correct.card = 1)
  | .MULTIPLE_CHOICE =>
    if submitted.card ≠ correct.card then false
    else decide (correct ⊆ submitted)

/-- Lookup in the byQuestionId map (question ids are primary keys, hence unique). -/
def findQuestion (questions : List Question) (qid : String) : Option Question :=
  questions.find? (fun q => decide (q.id = qid))

/-- Validate one answers entry against the quiz schema and decide its correctness. -/
def scoreEntry (questions : List Question) (a : AnswerEntry) : Except String Bool :=
  match findQuestion questions a.questionId with
  | none => .error invalidQuestionMsg
  | some q =>
    if ¬ submittedSet a.choiceIds ⊆ validChoiceIds q then .error invalidChoiceMsg
    else .ok (isCorrectAnswer q.type (submittedSet a.choiceIds) (correctSet q))

/-- The validate-and-score loop of the submit route: fails on the first invalid
entry, otherwise counts the entries judged correct. -/
def scoreAnswers (questions : List Question) : List AnswerEntry → Except String Nat
  | [] => .ok 0
  | a :: rest =>
    match scoreEntry questions a with
    | .error e => .error e
    | .ok b =>
      match scoreAnswers questions rest with
      | .error e => .error e
      | .ok s => .ok ((if b then 1 else 0) + s)

/-- Attempt status enum from the Prisma schema. -/
inductive AttemptStatus
  | IN_PROGRESS
  | SUBMITTED
  | GRADED
deriving DecidableEq

/-- One row of the Attempt table. -/
structure AttemptRow where
  id : String
  userId : String
  quizId : String
  attemptNo : Nat
  status : AttemptStatus
  startedAt : Nat
  submittedAt : Option Nat
  score : Option Nat
deriving DecidableEq

/-- One row of the Answer table together with its many-to-many choice set. -/
structure AnswerRow where
  attemptId : String
  questionId : String
  choices : Finset String
deriving DecidableEq

/-- The mutable state the save and submit routes read and write. -/
structure Store where
  attempts : List AttemptRow
  answers : List AnswerRow
deriving DecidableEq

/-- Model of findFirst with a filter and a descending orderBy on an integer
key: an element with maximal key among those satisfying the filter. -/
def argmaxBy {α : Type} (p : α → Bool) (key : α → Int) : List α → Option α
  | [] => none
  | r :: rest =>
    match argmaxBy p key rest with
    | none => if p r then some r else none
    | some b => if p r && decide (key b < key r) then some r else some b

/-- The hinted lookup shared by both routes: findFirst on
id, userId, quizId and status IN_PROGRESS. -/
def findHintedAttempt (st : Store) (aid userId quizId : String) : Option AttemptRow :=
  st.attempts.find? (fun r =>
    decide (r.id = aid ∧ r.userId = userId ∧ r.quizId = quizId ∧ r.status = .IN_PROGRESS))

/-- The save route fallback: findFirst on userId, quizId and status
IN_PROGRESS, ordered by startedAt descending. -/
def latestInProgress (st : Store) (userId quizId : String) : Option AttemptRow :=
  argmaxBy
    (fun r => decide (r.userId = userId ∧ r.quizId = quizId ∧ r.status = .IN_PROGRESS))
    (fun r => (r.startedAt : Int)) st.attempts

/-- aggregate max of attemptNo over (userId, quizId), defaulting to 0. -/
def maxAttemptNo (attempts : List AttemptRow) (userId quizId : String) : Nat :=
  match attempts with
  | [] => 0
  | r :: rest =>
    if r.userId = userId ∧ r.quizId = quizId then
      max r.attemptNo (maxAttemptNo rest userId quizId)
    else maxAttemptNo rest userId quizId

/-- Attempt resolution of the save route: hinted lookup when a hint is
supplied, most recent IN_PROGRESS attempt otherwise. -/
def resolveSaveAttempt (st : Store) (userId quizId : String) (hint : Option String) :
    Option AttemptRow :=
  match hint with
  | some aid => findHintedAttempt st aid userId quizId
  | none => latestInProgress st userId quizId

/-- The (attemptId, questionId) key of the Answer unique index. -/
def keyMatch (aid qid : String) (r : AnswerRow) : Bool :=
  decide (r.attemptId = aid ∧ r.questionId = qid)

/-- answer.upsert keyed on (attemptId, questionId): replace the associated
choice set wholesale, or create the row with the submitted choice set. -/
def upsertAnswer (answers : List AnswerRow) (aid : String) (a : AnswerEntry) :
    List AnswerRow :=
  if answers.any (keyMatch aid a.questionId) then
    answers.map (fun r =>
      if keyMatch aid a.questionId r then { r with choices := a.choiceIds.toFinset } else r)
  else
    answers ++ [⟨aid, a.questionId, a.choiceIds.toFinset⟩]

/-- The upsert loop over the answers array of the request body. -/
def upsertAnswers (answers : List AnswerRow) (aid : String) (entries : List AnswerEntry) :
    List AnswerRow :=
  match entries with
  | [] => answers
  | a :: rest => upsertAnswers (upsertAnswer answers aid a) aid rest

/-- The nested create of answer rows when a fresh attempt is created. -/
def newAnswerRows (aid : String) (entries : List AnswerEntry) : List AnswerRow :=
  entries.map (fun a => ⟨aid, a.questionId, a.choiceIds.toFinset⟩)

/-- The payload returned by the save route. -/
structure SaveResult where
  attemptId : String
  attemptNo : Nat
deriving DecidableEq

/-- POST /api/quiz/save after the auth, rate-limit, payload and publication
checks: resolve or create a single IN_PROGRESS attempt and upsert answers. -/
def saveOp (st : Store) (userId quizId : String) (hint : Option String)
    (entries : List AnswerEntry) (newId : String) (now : Nat) : Store × SaveResult :=
  match resolveSaveAttempt st userId quizId hint with
  | some a =>
    ({ st with answers := upsertAnswers st.answers a.id entries }, ⟨a.id, a.attemptNo⟩)
  | none =>
    let no := maxAttemptNo st.attempts userId quizId + 1
    ({ attempts := st.attempts ++ [⟨newId, userId, quizId, no, .IN_PROGRESS, now, none, none⟩],
       answers := st.answers ++ newAnswerRows newId entries },
     ⟨newId, no⟩)

/-- The payload returned by the submit route. -/
structure SubmitResult where
  attemptId : String
  score : Nat
  attemptNo : Nat
  totalQuestions : Nat
deriving DecidableEq

/-- The fresh-attempt branch of the submit route: next attemptNo, created
directly in SUBMITTED state with the computed score. -/
def submitFresh (st : Store) (userId quizId : String) (score : Nat)
    (entries : List AnswerEntry) (newId : String) (now : Nat) (total : Nat) :
    Store × SubmitResult :=
  let no := maxAttemptNo st.attempts userId quizId + 1
  ({ attempts := st.attempts ++
       [⟨newId, userId, quizId, no, .SUBMITTED, now, some now, some score⟩],
     answers := st.answers ++ newAnswerRows newId entries },
   ⟨newId, score, no, total⟩)

/-- POST /api/quiz/submit after the auth, rate-limit, payload and publication
checks: validate and score, then finalize the hinted IN_PROGRESS attempt if it
matches, otherwise create a fresh attempt directly in SUBMITTED state. -/
def submitOp (st : Store) (userId quizId : String) (hint : Option String)
    (questions : List Question) (entries : List AnswerEntry) (newId : String) (now : Nat) :
    Except String (Store × SubmitResult) :=
  if questions.length = 0 then .error emptyQuizMsg
  else
    match scoreAnswers questions entries with
    | .error e => .error e
    | .ok score =>
      match hint with
      | some aid =>
        match findHintedAttempt st aid userId quizId with
        | some a =>
          .ok ({ attempts := st.attempts.map (fun r =>
                   if r.id = a.id then
                     { r with status := .SUBMITTED, submittedAt := some now, score := some score }
                   else r),
                 answers := upsertAnswers st.answers a.id entries },
               ⟨a.id, score, a.attemptNo, questions.length⟩)
        | none => .ok (submitFresh st userId quizId score entries newId now questions.length)
      | none => .ok (submitFresh st userId quizId score entries newId now questions.length)

/-- The store after a submit request: the new store on success, the old store
unchanged when the request is rejected. -/
def submitStep (st : Store) (userId quizId : String) (hint : Option String)
    (questions : List Question) (entries : List AnswerEntry) (newId : String) (now : Nat) :
    Store :=
  match submitOp st userId quizId hint questions entries newId now with
  | .ok (st', _) => st'
  | .error _ => st

/-- One request in a sequential run of save and submit operations. -/
inductive Op
  | save (userId quizId : String) (hint : Option String) (entries : List AnswerEntry)
      (newId : String) (now : Nat)
  | submit (userId quizId : String) (hint : Option String) (questions : List Question)
      (entries : List AnswerEntry) (newId : String) (now : Nat)

/-- Apply one request to the store. -/
def applyOp (st : Store) : Op → Store
  | .save u z h es nid now => (saveOp st u z h es nid now).1
  | .submit u z h qs es nid now => submitStep st u z h qs es nid now

/-- Apply a sequential run of requests to the store. -/
def runOps (st : Store) : List Op → Store
  | [] => st
  | op :: rest => runOps (applyOp st op) rest

/-- The answer rows belonging to one attempt. -/
def answersFor (answers : List AnswerRow) (aid : String) : List AnswerRow :=
  answers.filter (fun r => decide (r.attemptId = aid))

/-- The attemptNo values stored for one (user, quiz) pair, in row order. -/
def pairNos (attempts : List AttemptRow) (userId quizId : String) : List Nat :=
  (attempts.filter (fun r => decide (r.userId = userId ∧ r.quizId = quizId))).map
    (fun r => r.attemptNo)

/-- Direction of the reorder helper of the admin question route. -/
inductive MoveDir
  | UP
  | DOWN
deriving DecidableEq

/-- One row of the Question table as read by the reorder helper; prompt
stands for the fields other than id, quizId and order. -/
structure QuestionRow where
  id : String
  quizId : String
  prompt : String
  order : Int
deriving DecidableEq

/-- The neighbor lookup of the reorder helper: for UP, findFirst on the same
quiz with a smaller order, ordered descending; for DOWN, with a greater
order, ordered ascending. -/
def findNeighbor (qs : List QuestionRow) (q : QuestionRow) : MoveDir → Option QuestionRow
  | .UP =>
    argmaxBy (fun r => decide (r.quizId = q.quizId ∧ r.order < q.order))
      (fun r => r.order) qs
  | .DOWN =>
    argmaxBy (fun r => decide (r.quizId = q.quizId ∧ q.order < r.order))
      (fun r => -r.order) qs

def uniqueViolationMsg : String := "Unique constraint failed on quizId and order."

/-- Whether the question table satisfies the unique index
Question_quizId_order_key on (quizId, order). -/
def orderKeysNodup (qs : List QuestionRow) : Bool :=
  decide ((qs.map (fun r => (r.quizId, r.order))).Nodup)

/-- One question.update statement setting order: Postgres checks the
non-deferrable unique index Question_quizId_order_key immediately, so the
statement errors when the updated table has two same-quiz rows sharing an
order, and the surrounding transaction rolls back. -/
def updateQuestionOrder (qs : List QuestionRow) (qid : String) (newOrder : Int) :
    Except String (List QuestionRow) :=
  let updated := qs.map (fun r => if r.id = qid then { r with order := newOrder } else r)
  if orderKeysNodup updated then .ok updated else .error uniqueViolationMsg

/-- The move branch of PUT /api/admin/question: look up the question, find its
neighbor, and attempt to swap the two order values with two sequential
updates by id, each statement subject to the unique (quizId, order) index. -/
def moveQuestion (qs : List QuestionRow) (qid : String) (dir : MoveDir) :
    Except String (List QuestionRow) :=
  match qs.find? (fun r => decide (r.id = qid)) with
  | none => .error questionNotFoundMsg
  | some q =>
    match findNeighbor qs q dir with
    | none => .ok qs
    | some n =>
      match updateQuestionOrder qs q.id n.order with
      | .error e => .error e
      | .ok qs1 =>
        match updateQuestionOrder qs1 n.id q.order with
        | .error e => .error e
        | .ok qs2 => .ok qs2

instance {ε α : Type} [DecidableEq ε] [DecidableEq α] : DecidableEq (Except ε α) := fun x y =>
  match x, y with
  | .error e, .error f =>
    if h : e = f then isTrue (by rw [h]) else isFalse (by intro hc; cases hc; exact h rfl)
  | .ok a, .ok b =>
    if h : a = b then isTrue (by rw [h]) else isFalse (by intro hc; cases hc; exact h rfl)
  | .error e, .ok b => isFalse (by intro hc; cases hc)
  | .ok a, .error f => isFalse (by intro hc; cases hc)

/-- The correctness verdict of one entry, false on validation failure. -/
def entryCorrect (questions : List Question) (a : AnswerEntry) : Bool :=
  match scoreEntry questions a with
  | .ok b => b
  | .error _ => false

theorem find_unique {α β : Type} [DecidableEq β] (l : List α) (f : α → β) (p : α → Bool)
    (x : α) (hnd : (l.map f).Nodup) (hx : x ∈ l) (hpx : p x = true)
    (hkey : ∀ y, p y = true → f y = f x) :
    l.find? p = some x := by
  induction l with
  | nil => cases hx
  | cons h t ih =>
    simp only [List.map_cons, List.nodup_cons, List.mem_map] at hnd
    rcases List.mem_cons.mp hx with rfl | hxt
    · exact List.find?_cons_of_pos _ hpx
    · have hph : p h = false := by
        by_contra hph
        have hfh : f h = f x := hkey h (by simpa using hph)
        exact hnd.1 ⟨x, hxt, hfh.symm⟩
      rw [List.find?_cons_of_neg _ (by simp [hph])]
      exact ih hnd.2 hxt

theorem filter_eq_singleton {α β : Type} [DecidableEq β] (l : List α) (f : α → β) (x : α)
    (hnd : (l.map f).Nodup) (hx : x ∈ l) :
    l.filter (fun y => decide (f y = f x)) = [x] := by
  induction l with
  | nil => cases hx
  | cons h t ih =>
    simp only [List.map_cons, List.nodup_cons, List.mem_map] at hnd
    rcases List.mem_cons.mp hx with rfl | hxt
    · have ht : t.filter (fun y => decide (f y = f x)) = [] := by
        rw [List.filter_eq_nil_iff]
        intro y hy
        simp only [decide_eq_true_eq]
        intro hfy
        exact hnd.1 ⟨y, hy, hfy⟩
      simp [List.filter_cons, ht]
    · have hfh : ¬ f h = f x := by
        intro hfh
        exact hnd.1 ⟨x, hxt, hfh.symm⟩
      simp only [List.filter_cons, decide_eq_true_eq, hfh, if_false]
      exact ih hnd.2 hxt

theorem argmaxBy_none_forall {α : Type} (p : α → Bool) (key : α → Int) (l : List α)
    (h : argmaxBy p key l = none) : ∀ r ∈ l, p r = false := by
  induction l with
  | nil => intro r hr; cases hr
  | cons a t ih =>
    cases hrec : argmaxBy p key t with
    | none =>
      simp only [argmaxBy, hrec] at h
      intro r hr
      rcases List.mem_cons.mp hr with rfl | hrt
      · by_contra hp
        rw [if_pos (by simpa using hp)] at h
        cases h
      · exact ih hrec r hrt
    | some b =>
      simp only [argmaxBy, hrec] at h
      split at h <;> cases h

theorem argmaxBy_none_of_forall {α : Type} (p : α → Bool) (key : α → Int) (l : List α)
    (h : ∀ r ∈ l, p r = false) : argmaxBy p key l = none := by
  induction l with
  | nil => rfl
  | cons a t ih =>
    have ht := ih (fun r hr => h r (List.mem_cons_of_mem _ hr))
    simp only [argmaxBy, ht]
    simp [h a (List.mem_cons_self _ _)]

theorem argmaxBy_some {α : Type} (p : α → Bool) (key : α → Int) (l : List α) (n : α)
    (h : argmaxBy p key l = some n) :
    n ∈ l ∧ p n = true ∧ ∀ r ∈ l, p r = true → key r ≤ key n := by
  induction l generalizing n with
  | nil => cases h
  | cons a t ih =>
    cases hrec : argmaxBy p key t with
    | none =>
      simp only [argmaxBy, hrec] at h
      split at h
      · cases h
        rename_i hp
        refine ⟨List.mem_cons_self _ _, hp, ?_⟩
        intro r hr hpr
        rcases List.mem_cons.mp hr with rfl | hrt
        · exact le_refl _
        · exact absurd hpr (by simp [argmaxBy_none_forall p key t hrec r hrt])
      · cases h
    | some b =>
      simp only [argmaxBy, hrec] at h
      obtain ⟨hbmem, hbp, hbmax⟩ := ih b hrec
      split at h
      · cases h
        rename_i hcond
        obtain ⟨hpa, hlt⟩ := (Bool.and_eq_true _ _).mp hcond
        refine ⟨List.mem_cons_self _ _, hpa, ?_⟩
        intro r hr hpr
        rcases List.mem_cons.mp hr with rfl | hrt
        · exact le_refl _
        · have h1 := hbmax r hrt hpr
          have h2 : key b < key a := of_decide_eq_true hlt
          omega
      · cases h
        rename_i hcond
        refine ⟨List.mem_cons_of_mem _ hbmem, hbp, ?_⟩
        intro r hr hpr
        rcases List.mem_cons.mp hr with rfl | hrt
        · have hnlt : ¬ (key n < key r) := by
            intro hlt
            exact hcond (by simp [hpr, hlt])
          omega
        · exact hbmax r hrt hpr

theorem le_maxAttemptNo (attempts : List AttemptRow) (u z : String) (r : AttemptRow)
    (hr : r ∈ attempts) (hu : r.userId = u) (hz : r.quizId = z) :
    r.attemptNo ≤ maxAttemptNo attempts u z := by
  induction attempts with
  | nil => cases hr
  | cons a t ih =>
    simp only [maxAttemptNo]
    rcases List.mem_cons.mp hr with rfl | hrt
    · rw [if_pos ⟨hu, hz⟩]
      exact le_max_left _ _
    · by_cases hc : a.userId = u ∧ a.quizId = z
      · rw [if_pos hc]
        exact le_trans (ih hrt) (le_max_right _ _)
      · rw [if_neg hc]
        exact ih hrt

theorem pairNos_append (l1 l2 : List AttemptRow) (u z : String) :
    pairNos (l1 ++ l2) u z = pairNos l1 u z ++ pairNos l2 u z := by
  simp [pairNos, List.filter_append]

theorem mem_pairNos (attempts : List AttemptRow) (u z : String) (m : Nat) :
    m ∈ pairNos attempts u z ↔
      ∃ r ∈ attempts, r.userId = u ∧ r.quizId = z ∧ r.attemptNo = m := by
  simp only [pairNos, List.mem_map, List.mem_filter, decide_eq_true_eq]
  constructor
  · rintro ⟨r, ⟨hr, hu, hz⟩, hm⟩
    exact ⟨r, hr, hu, hz, hm⟩
  · rintro ⟨r, hr, hu, hz, hm⟩
    exact ⟨r, ⟨hr, hu, hz⟩, hm⟩

theorem pairNos_le_max (attempts : List AttemptRow) (u z : String) (m : Nat)
    (hm : m ∈ pairNos attempts u z) : m ≤ maxAttemptNo attempts u z := by
  obtain ⟨r, hr, hu, hz, hmr⟩ := (mem_pairNos attempts u z m).mp hm
  exact hmr ▸ le_maxAttemptNo attempts u z r hr hu hz

theorem pairNos_map_preserve (attempts : List AttemptRow) (u z : String)
    (f : AttemptRow → AttemptRow)
    (hf : ∀ r, (f r).userId = r.userId ∧ (f r).quizId = r.quizId ∧
      (f r).attemptNo = r.attemptNo) :
    pairNos (attempts.map f) u z = pairNos attempts u z := by
  induction attempts with
  | nil => rfl
  | cons a t ih =>
    obtain ⟨h1, h2, h3⟩ := hf a
    simp only [pairNos, List.map_cons, List.filter_cons] at ih ⊢
    rw [show (decide ((f a).userId = u ∧ (f a).quizId = z)) =
      (decide (a.userId = u ∧ a.quizId = z)) by rw [h1, h2]]
    cases hdec : decide (a.userId = u ∧ a.quizId = z) with
    | true =>
      rw [if_pos rfl, if_pos rfl]
      simp only [List.map_cons, h3]
      rw [ih]
    | false =>
      rw [if_neg (by simp), if_neg (by simp)]
      exact ih

theorem findHintedAttempt_some (st : Store) (aid u z : String) (a : AttemptRow)
    (h : findHintedAttempt st aid u z = some a) :
    a ∈ st.attempts ∧ a.id = aid ∧ a.userId = u ∧ a.quizId = z ∧
      a.status = .IN_PROGRESS := by
  have hmem := List.mem_of_find?_eq_some h
  have hp := List.find?_some h
  exact ⟨hmem, of_decide_eq_true hp⟩

theorem findHintedAttempt_of_mem (st : Store) (u z : String) (a : AttemptRow)
    (hnd : (st.attempts.map (fun r => r.id)).Nodup)
    (ha : a ∈ st.attempts) (hu : a.userId = u) (hz : a.quizId = z)
    (hs : a.status = .IN_PROGRESS) :
    findHintedAttempt st a.id u z = some a := by
  apply find_unique st.attempts (fun r => r.id) _ a hnd ha
  · exact decide_eq_true ⟨rfl, hu, hz, hs⟩
  · intro y hy
    exact (of_decide_eq_true hy).1

theorem findQuestion_of_mem (questions : List Question) (q : Question)
    (hnd : (questions.map (fun x => x.id)).Nodup) (hq : q ∈ questions) :
    findQuestion questions q.id = some q := by
  apply find_unique questions (fun x => x.id) _ q hnd hq
  · exact decide_eq_true rfl
  · intro y hy
    exact of_decide_eq_true hy

theorem findQuestion_some (questions : List Question) (qid : String) (q : Question)
    (h : findQuestion questions qid = some q) : q ∈ questions ∧ q.id = qid := by
  rw [findQuestion] at h
  have hp := List.find?_some h
  simp only [decide_eq_true_eq] at hp
  exact ⟨List.mem_of_find?_eq_some h, hp⟩

theorem mem_submittedSet (ids : List String) (c : String) (hc : c ∈ ids) (hne : c ≠ "") :
    c ∈ submittedSet ids := by
  simp [submittedSet, List.mem_toFinset, List.mem_filter, hc, hne]

/-- An answers entry the spec requires a 400-class rejection for: an unknown
questionId, or a non-empty choiceId not belonging to the referenced question. -/
def invalidEntry (questions : List Question) (a : AnswerEntry) : Prop :=
  a.questionId ∉ questions.map (fun q => q.id) ∨
    ∃ q ∈ questions, q.id = a.questionId ∧
      ∃ c ∈ a.choiceIds, c ≠ "" ∧ c ∉ validChoiceIds q

theorem scoreEntry_error_of_invalid (questions : List Question) (a : AnswerEntry)
    (hnd : (questions.map (fun x => x.id)).Nodup) (hbad : invalidEntry questions a) :
    ∃ m, scoreEntry questions a = .error m := by
  rcases hbad with hf | ⟨q, hq, hid, c, hc, hne, hnv⟩
  · have : findQuestion questions a.questionId = none := by
      rw [findQuestion, List.find?_eq_none]
      intro x hx
      simp only [decide_eq_true_eq]
      intro hxid
      exact hf (List.mem_map.mpr ⟨x, hx, hxid⟩)
    exact ⟨invalidQuestionMsg, by simp [scoreEntry, this]⟩
  · have hfq : findQuestion questions a.questionId = some q := hid ▸ findQuestion_of_mem questions q hnd hq
    have hmem : c ∈ submittedSet a.choiceIds := mem_submittedSet _ _ hc hne
    have hnsub : ¬ submittedSet a.choiceIds ⊆ validChoiceIds q := fun hs => hnv (hs hmem)
    exact ⟨invalidChoiceMsg, by simp [scoreEntry, hfq, hnsub]⟩

theorem scoreAnswers_error_of_invalid (questions : List Question)
    (entries : List AnswerEntry) (hnd : (questions.map (fun x => x.id)).Nodup)
    (hbad : ∃ a ∈ entries, invalidEntry questions a) :
    ∃ m, scoreAnswers questions entries = .error m := by
  induction entries with
  | nil => obtain ⟨a, ha, _⟩ := hbad; cases ha
  | cons a t ih =>
    cases he : scoreEntry questions a with
    | error m => exact ⟨m, by simp [scoreAnswers, he]⟩
    | ok b =>
      obtain ⟨a0, ha0, hbad0⟩ := hbad
      rcases List.mem_cons.mp ha0 with rfl | ht
      · obtain ⟨m, hm⟩ := scoreEntry_error_of_invalid questions a0 hnd hbad0
        rw [hm] at he
        cases he
      · obtain ⟨m, hm⟩ := ih ⟨a0, ht, hbad0⟩
        exact ⟨m, by simp [scoreAnswers, he, hm]⟩

theorem scoreAnswers_ok_count (questions : List Question) (entries : List AnswerEntry)
    (s : Nat) (h : scoreAnswers questions entries = .ok s) :
    s = entries.countP (entryCorrect questions) := by
  induction entries generalizing s with
  | nil =>
    simp only [scoreAnswers] at h
    cases h
    rfl
  | cons a t ih =>
    cases he : scoreEntry questions a with
    | error m => simp [scoreAnswers, he] at h
    | ok b =>
      cases hrest : scoreAnswers questions t with
      | error m => simp [scoreAnswers, he, hrest] at h
      | ok s' =>
        simp only [scoreAnswers, he, hrest] at h
        cases h
        rw [List.countP_cons]
        have hb : entryCorrect questions a = b := by simp [entryCorrect, he]
        rw [hb, ← ih s' hrest]
        cases b <;> simp +arith

theorem scoreAnswers_ok_forall (questions : List Question) (entries : List AnswerEntry)
    (s : Nat) (h : scoreAnswers questions entries = .ok s) :
    ∀ a ∈ entries, ∃ b, scoreEntry questions a = .ok b := by
  induction entries generalizing s with
  | nil => intro a ha; cases ha
  | cons a t ih =>
    intro a0 ha0
    cases he : scoreEntry questions a with
    | error m => simp [scoreAnswers, he] at h
    | ok b =>
      cases hrest : scoreAnswers questions t with
      | error m => simp [scoreAnswers, he, hrest] at h
      | ok s' =>
        rcases List.mem_cons.mp ha0 with rfl | ht
        · exact ⟨b, he⟩
        · exact ih s' hrest a0 ht

/-- The (attemptId, questionId) keys of a list of answer rows. -/
def keysOf (answers : List AnswerRow) : List (String × String) :=
  answers.map (fun r => (r.attemptId, r.questionId))

theorem filter_map_invariant {α : Type} (l : List α) (f : α → α) (p : α → Bool)
    (h1 : ∀ r, p (f r) = p r) (h2 : ∀ r, p r = true → f r = r) :
    (l.map f).filter p = l.filter p := by
  induction l with
  | nil => rfl
  | cons a t ih =>
    simp only [List.map_cons, List.filter_cons, h1 a]
    cases hp : p a with
    | true => rw [if_pos rfl, if_pos rfl, h2 a hp, ih]
    | false =>
      rw [if_neg (by simp), if_neg (by simp)]
      exact ih

theorem filter_map_single {α : Type} (l : List α) (f : α → α) (p : α → Bool)
    (h1 : ∀ r, p (f r) = p r) (x : α) (hx : l.filter p = [x]) :
    (l.map f).filter p = [f x] := by
  induction l with
  | nil => cases hx
  | cons a t ih =>
    simp only [List.filter_cons] at hx
    simp only [List.map_cons, List.filter_cons, h1 a]
    cases hp : p a with
    | true =>
      rw [if_pos rfl]
      rw [if_pos hp] at hx
      have hax : a = x ∧ t.filter p = [] := by
        injection hx with hx1 hx2
        exact ⟨hx1, hx2⟩
      have hmap : (t.map f).filter p = [] := by
        rw [List.filter_eq_nil_iff]
        intro b hb
        obtain ⟨c, hc, rfl⟩ := List.mem_map.mp hb
        rw [h1 c]
        have := List.filter_eq_nil_iff.mp hax.2 c hc
        simpa using this
      rw [hmap, hax.1]
    | false =>
      rw [if_neg (by simp)]
      rw [if_neg (by simp [hp])] at hx
      exact ih hx

theorem keyMatch_iff (aid qid : String) (r : AnswerRow) :
    keyMatch aid qid r = true ↔ r.attemptId = aid ∧ r.questionId = qid := by
  simp [keyMatch]

theorem upsertAnswer_key_preserve (aid : String) (a : AnswerEntry) (r : AnswerRow) :
    (if keyMatch aid a.questionId r then
      { r with choices := a.choiceIds.toFinset } else r).attemptId = r.attemptId ∧
    (if keyMatch aid a.questionId r then
      { r with choices := a.choiceIds.toFinset } else r).questionId = r.questionId := by
  by_cases h : keyMatch aid a.questionId r = true
  · simp [h]
  · simp [h]

theorem keysOf_upsertAnswer (ans : List AnswerRow) (aid : String) (a : AnswerEntry) :
    keysOf (upsertAnswer ans aid a) = keysOf ans ∨
      (keysOf (upsertAnswer ans aid a) = keysOf ans ++ [(aid, a.questionId)] ∧
        (aid, a.questionId) ∉ keysOf ans) := by
  rw [upsertAnswer]
  by_cases hany : ans.any (keyMatch aid a.questionId) = true
  · left
    rw [if_pos hany, keysOf, List.map_map]
    apply List.map_congr_left
    intro r _
    obtain ⟨h1, h2⟩ := upsertAnswer_key_preserve aid a r
    simp only [Function.comp_apply, h1, h2]
  · right
    rw [if_neg hany, keysOf, List.map_append]
    constructor
    · rfl
    · rw [List.any_eq_true] at hany
      push_neg at hany
      intro hmem
      obtain ⟨r, hr, hkey⟩ := List.mem_map.mp hmem
      exact hany r hr (by
        rw [keyMatch_iff]
        exact ⟨congrArg Prod.fst hkey, congrArg Prod.snd hkey⟩)

theorem keysOf_upsertAnswer_nodup (ans : List AnswerRow) (aid : String) (a : AnswerEntry)
    (h : (keysOf ans).Nodup) : (keysOf (upsertAnswer ans aid a)).Nodup := by
  rcases keysOf_upsertAnswer ans aid a with heq | ⟨heq, hnm⟩
  · rw [heq]; exact h
  · rw [heq]
    simp [List.nodup_append, h, hnm]

theorem upsertAnswer_filter_ne (ans : List AnswerRow) (aid : String) (a : AnswerEntry)
    (aid' qid' : String) (hne : ¬ (aid' = aid ∧ qid' = a.questionId)) :
    (upsertAnswer ans aid a).filter (keyMatch aid' qid') =
      ans.filter (keyMatch aid' qid') := by
  rw [upsertAnswer]
  by_cases hany : ans.any (keyMatch aid a.questionId) = true
  · rw [if_pos hany]
    apply filter_map_invariant
    · intro r
      obtain ⟨h1, h2⟩ := upsertAnswer_key_preserve aid a r
      by_cases hk : keyMatch aid' qid' r = true
      · rw [hk]
        rw [keyMatch_iff] at hk ⊢
        rw [h1, h2]
        exact hk
      · rw [Bool.not_eq_true] at hk
        rw [hk]
        rw [Bool.eq_false_iff] at hk ⊢
        intro hc
        apply hk
        rw [keyMatch_iff] at hc ⊢
        rw [h1, h2] at hc
        exact hc
    · intro r hk
      have hr := (keyMatch_iff aid' qid' r).mp hk
      rw [if_neg]
      rw [keyMatch_iff]
      intro hc
      exact hne ⟨hr.1 ▸ hc.1 ▸ rfl, hr.2 ▸ hc.2 ▸ rfl⟩
  · rw [if_neg hany, List.filter_append]
    have : [(⟨aid, a.questionId, a.choiceIds.toFinset⟩ : AnswerRow)].filter
        (keyMatch aid' qid') = [] := by
      simp only [List.filter_cons, List.filter_nil]
      rw [if_neg]
      simp only [keyMatch_iff]
      intro hc
      exact hne ⟨hc.1.symm, hc.2.symm⟩
    rw [this, List.append_nil]

theorem upsertAnswer_filter_hit (ans : List AnswerRow) (aid : String) (a : AnswerEntry)
    (hk : (keysOf ans).Nodup) :
    (upsertAnswer ans aid a).filter (keyMatch aid a.questionId) =
      [⟨aid, a.questionId, a.choiceIds.toFinset⟩] := by
  rw [upsertAnswer]
  by_cases hany : ans.any (keyMatch aid a.questionId) = true
  · rw [if_pos hany]
    obtain ⟨x, hxmem, hxkey⟩ := List.any_eq_true.mp hany
    obtain ⟨hxa, hxq⟩ := (keyMatch_iff _ _ _).mp hxkey
    have hfl : ans.filter (keyMatch aid a.questionId) = [x] := by
      have hcongr : ans.filter (keyMatch aid a.questionId) =
          ans.filter (fun y => decide ((fun r => (r.attemptId, r.questionId)) y =
            (fun r => (r.attemptId, r.questionId)) x)) := by
        apply List.filter_congr
        intro y _
        simp only [keyMatch, decide_eq_decide, Prod.mk.injEq, hxa, hxq]
      rw [hcongr]
      exact filter_eq_singleton ans (fun r => (r.attemptId, r.questionId)) x hk hxmem
    have := filter_map_single ans
      (fun r => if keyMatch aid a.questionId r then
        { r with choices := a.choiceIds.toFinset } else r)
      (keyMatch aid a.questionId) ?_ x hfl
    · rw [this]
      cases x with
      | mk xa xq xc =>
        simp only at hxa hxq
        simp only [hxa, hxq]
        rw [if_pos (show keyMatch aid a.questionId
          ⟨aid, a.questionId, xc⟩ = true by
            rw [keyMatch_iff]
            exact ⟨rfl, rfl⟩)]
    · intro r
      obtain ⟨h1, h2⟩ := upsertAnswer_key_preserve aid a r
      by_cases hkr : keyMatch aid a.questionId r = true
      · rw [hkr]
        rw [keyMatch_iff] at hkr ⊢
        rw [h1, h2]
        exact hkr
      · rw [Bool.not_eq_true] at hkr
        rw [hkr]
        rw [Bool.eq_false_iff] at hkr ⊢
        intro hc
        apply hkr
        rw [keyMatch_iff] at hc ⊢
        rw [h1, h2] at hc
        exact hc
  · rw [if_neg hany, List.filter_append]
    have h1 : ans.filter (keyMatch aid a.questionId) = [] := by
      rw [List.filter_eq_nil_iff]
      intro r hr
      rw [List.any_eq_true] at hany
      push_neg at hany
      simpa using hany r hr
    rw [h1, List.nil_append]
    simp [List.filter_cons, keyMatch_iff]

theorem upsertAnswers_keysOf_nodup (ans : List AnswerRow) (aid : String)
    (entries : List AnswerEntry) (h : (keysOf ans).Nodup) :
    (keysOf (upsertAnswers ans aid entries)).Nodup := by
  induction entries generalizing ans with
  | nil => exact h
  | cons a t ih =>
    rw [upsertAnswers]
    exact ih _ (keysOf_upsertAnswer_nodup ans aid a h)

theorem upsertAnswers_filter_frame (ans : List AnswerRow) (aid : String)
    (entries : List AnswerEntry) (aid' qid' : String)
    (h : ∀ e ∈ entries, ¬ (aid' = aid ∧ qid' = e.questionId)) :
    (upsertAnswers ans aid entries).filter (keyMatch aid' qid') =
      ans.filter (keyMatch aid' qid') := by
  induction entries generalizing ans with
  | nil => rfl
  | cons a t ih =>
    rw [upsertAnswers]
    rw [ih _ (fun e he => h e (List.mem_cons_of_mem _ he))]
    exact upsertAnswer_filter_ne ans aid a aid' qid' (h a (List.mem_cons_self _ _))

theorem upsertAnswers_filter_hit (ans : List AnswerRow) (aid : String)
    (entries : List AnswerEntry) (e : AnswerEntry)
    (hk : (keysOf ans).Nodup)
    (hnd : (entries.map (fun x => x.questionId)).Nodup) (he : e ∈ entries) :
    (upsertAnswers ans aid entries).filter (keyMatch aid e.questionId) =
      [⟨aid, e.questionId, e.choiceIds.toFinset⟩] := by
  induction entries generalizing ans with
  | nil => cases he
  | cons a t ih =>
    simp only [List.map_cons, List.nodup_cons, List.mem_map] at hnd
    rw [upsertAnswers]
    rcases List.mem_cons.mp he with rfl | het
    · rw [upsertAnswers_filter_frame _ aid t aid e.questionId ?_]
      · exact upsertAnswer_filter_hit ans aid e hk
      · intro e' he' hc
        exact hnd.1 ⟨e', he', hc.2.symm⟩
    · exact ih _ (keysOf_upsertAnswer_nodup ans aid a hk) hnd.2 het

theorem map_eq_self_of_mem {α : Type} (l : List α) (f : α → α)
    (h : ∀ r ∈ l, f r = r) : l.map f = l := by
  induction l with
  | nil => rfl
  | cons a t ih =>
    rw [List.map_cons, h a (List.mem_cons_self _ _),
      ih (fun r hr => h r (List.mem_cons_of_mem _ hr))]

theorem upsertAnswer_fix (ans : List AnswerRow) (aid : String) (a : AnswerEntry)
    (h : ans.filter (keyMatch aid a.questionId) =
      [⟨aid, a.questionId, a.choiceIds.toFinset⟩]) :
    upsertAnswer ans aid a = ans := by
  have htgt : (⟨aid, a.questionId, a.choiceIds.toFinset⟩ : AnswerRow) ∈
      ans.filter (keyMatch aid a.questionId) := by
    rw [h]
    exact List.mem_cons_self _ _
  have hmem := List.mem_filter.mp htgt
  rw [upsertAnswer, if_pos (List.any_eq_true.mpr ⟨_, hmem.1, hmem.2⟩)]
  apply map_eq_self_of_mem
  intro r hr
  by_cases hkr : keyMatch aid a.questionId r = true
  · have : r ∈ ans.filter (keyMatch aid a.questionId) := List.mem_filter.mpr ⟨hr, hkr⟩
    rw [h] at this
    have hre : r = ⟨aid, a.questionId, a.choiceIds.toFinset⟩ := by
      rcases List.mem_cons.mp this with heq | hc
      · exact heq
      · cases hc
    rw [if_pos hkr, hre]
  · rw [if_neg hkr]

theorem upsertAnswers_fix (ans : List AnswerRow) (aid : String)
    (entries : List AnswerEntry)
    (h : ∀ e ∈ entries, ans.filter (keyMatch aid e.questionId) =
      [⟨aid, e.questionId, e.choiceIds.toFinset⟩]) :
    upsertAnswers ans aid entries = ans := by
  induction entries with
  | nil => rfl
  | cons a t ih =>
    rw [upsertAnswers, upsertAnswer_fix ans aid a (h a (List.mem_cons_self _ _))]
    exact ih (fun e he => h e (List.mem_cons_of_mem _ he))

theorem upsertAnswer_answersFor_ne (ans : List AnswerRow) (aid : String)
    (a : AnswerEntry) (rid : String) (hne : rid ≠ aid) :
    answersFor (upsertAnswer ans aid a) rid = answersFor ans rid := by
  rw [upsertAnswer, answersFor, answersFor]
  by_cases hany : ans.any (keyMatch aid a.questionId) = true
  · rw [if_pos hany]
    apply filter_map_invariant
    · intro r
      by_cases hkr : keyMatch aid a.questionId r = true
      · simp [hkr]
      · simp [hkr]
    · intro r hkr
      rw [if_neg]
      intro hc
      have h1 := ((keyMatch_iff _ _ _).mp hc).1
      have h2 := of_decide_eq_true hkr
      exact hne (h2 ▸ h1 ▸ rfl)
  · rw [if_neg hany, List.filter_append]
    have : ([(⟨aid, a.questionId, a.choiceIds.toFinset⟩ : AnswerRow)]).filter
        (fun r => decide (r.attemptId = rid)) = [] := by
      simp [hne.symm]
    rw [this, List.append_nil]

theorem upsertAnswers_answersFor_ne (ans : List AnswerRow) (aid : String)
    (entries : List AnswerEntry) (rid : String) (hne : rid ≠ aid) :
    answersFor (upsertAnswers ans aid entries) rid = answersFor ans rid := by
  induction entries generalizing ans with
  | nil => rfl
  | cons a t ih =>
    rw [upsertAnswers, ih _, upsertAnswer_answersFor_ne ans aid a rid hne]

theorem answersFor_append_ne (ans rows : List AnswerRow) (rid : String)
    (h : ∀ r ∈ rows, r.attemptId ≠ rid) :
    answersFor (ans ++ rows) rid = answersFor ans rid := by
  rw [answersFor, answersFor, List.filter_append]
  have : rows.filter (fun r => decide (r.attemptId = rid)) = [] := by
    rw [List.filter_eq_nil_iff]
    intro r hr
    simpa using h r hr
  rw [this, List.append_nil]

/-- Sample single-choice question used by witnesses. -/
def qSingle : Question := ⟨"q1", .SINGLE_CHOICE, [⟨"A", true⟩, ⟨"B", false⟩]⟩

/-- Sample multiple-choice question used by witnesses. -/
def qMulti : Question := ⟨"q2", .MULTIPLE_CHOICE, [⟨"C", true⟩, ⟨"D", true⟩, ⟨"E", false⟩]⟩

/-- Sample IN_PROGRESS attempt row used by witnesses. -/
def rowA1 : AttemptRow := ⟨"a1", "u", "z", 1, .IN_PROGRESS, 5, none, none⟩

/-- Sample store holding one IN_PROGRESS attempt, used by witnesses. -/
def storeA1 : Store := ⟨[rowA1], []⟩

/-- Claim C4: for every SINGLE_CHOICE question, the submit scoring marks it
correct iff the deduplicated submitted choice set has exactly one element,
that element is in the correct set, and the correct set has exactly one
member; zero, multiple, or a single wrong choice all score incorrect. -/
theorem single_choice_scoring_iff (q : Question) (ids : List String)
    (ht : q.type = QuestionType.SINGLE_CHOICE) :
    isCorrectAnswer q.type (submittedSet ids) (correctSet q) = true ↔
      ∃ c, submittedSet ids = {c} ∧ c ∈ correctSet q ∧ (correctSet q).card = 1 := by
  rw [ht]
  simp only [isCorrectAnswer]
  by_cases hc : (submittedSet ids).card = 1
  · rw [if_neg (not_not_intro hc)]
    simp only [Bool.and_eq_true, decide_eq_true_eq]
    constructor
    · rintro ⟨hsub, hcard⟩
      obtain ⟨c, hceq⟩ := Finset.card_eq_one.mp hc
      refine ⟨c, hceq, ?_, hcard⟩
      apply hsub
      rw [hceq]
      exact Finset.mem_singleton_self c
    · rintro ⟨c, hceq, hcmem, hcard⟩
      refine ⟨?_, hcard⟩
      rw [hceq]
      exact Finset.singleton_subset_iff.mpr hcmem
  · rw [if_pos hc]
    constructor
    · intro h
      cases h
    · rintro ⟨c, hceq, -, -⟩
      exact absurd (by rw [hceq]; exact Finset.card_singleton c) hc

theorem single_choice_scoring_iff_witness :
    (isCorrectAnswer qSingle.type (submittedSet ["A"]) (correctSet qSingle) = true) ∧
      isCorrectAnswer qSingle.type (submittedSet ["B"]) (correctSet qSingle) = false ∧
      isCorrectAnswer qSingle.type (submittedSet []) (correctSet qSingle) = false ∧
      isCorrectAnswer qSingle.type (submittedSet ["A", "B"]) (correctSet qSingle) = false := by
  refine ⟨?_, by decide, by decide, by decide⟩
  exact (single_choice_scoring_iff qSingle ["A"] rfl).mpr
    ⟨"A", by decide, by decide, by decide⟩

/-- Claim C5: for every MULTIPLE_CHOICE question, the submit scoring marks it
correct iff the deduplicated submitted choice set is set-equal to the set of
choices flagged correct; strict subsets, supersets, and disjoint sets all
score incorrect. -/
theorem multiple_choice_scoring_iff (q : Question) (ids : List String)
    (ht : q.type = QuestionType.MULTIPLE_CHOICE) :
    isCorrectAnswer q.type (submittedSet ids) (correctSet q) = true ↔
      submittedSet ids = correctSet q := by
  rw [ht]
  simp only [isCorrectAnswer]
  by_cases hc : (submittedSet ids).card = (correctSet q).card
  · rw [if_neg (not_not_intro hc)]
    simp only [decide_eq_true_eq]
    constructor
    · intro hsub
      exact (Finset.eq_of_subset_of_card_le hsub (le_of_eq hc)).symm
    · intro heq
      rw [heq]
  · rw [if_pos hc]
    constructor
    · intro h
      cases h
    · intro heq
      exact absurd (by rw [heq]) hc

theorem multiple_choice_scoring_iff_witness :
    (isCorrectAnswer qMulti.type (submittedSet ["C", "D"]) (correctSet qMulti) = true) ∧
      isCorrectAnswer qMulti.type (submittedSet ["C"]) (correctSet qMulti) = false ∧
      isCorrectAnswer qMulti.type (submittedSet ["C", "D", "E"]) (correctSet qMulti) = false ∧
      isCorrectAnswer qMulti.type (submittedSet ["E"]) (correctSet qMulti) = false := by
  refine ⟨?_, by decide, by decide, by decide⟩
  exact (multiple_choice_scoring_iff qMulti ["C", "D"] rfl).mpr (by decide)

/-- Claim C10: a MULTIPLE_CHOICE question none of whose choices is flagged
correct is scored as correct by a submit entry whose choiceIds are empty or
all falsy, adding 1 to the score: the empty submitted set is set-equal to
the empty correct set, and the zero-correct-choices guard exists only in
the SINGLE_CHOICE branch. -/
theorem empty_correct_set_scores_correct (q : Question) (ids : List String)
    (ht : q.type = QuestionType.MULTIPLE_CHOICE)
    (hnc : ∀ c ∈ q.choices, c.isCorrect = false)
    (hids : ∀ s ∈ ids, s = "") :
    isCorrectAnswer q.type (submittedSet ids) (correctSet q) = true ∧
      scoreAnswers [q] [⟨q.id, ids⟩] = .ok 1 := by
  have hsub : submittedSet ids = ∅ := by
    rw [submittedSet]
    have hnil : ids.filter (fun c => decide (c ≠ "")) = [] := by
      rw [List.filter_eq_nil_iff]
      intro c hc
      simpa using hids c hc
    rw [hnil]
    rfl
  have hcor : correctSet q = ∅ := by
    rw [correctSet]
    have hnil : q.choices.filter (fun c => c.isCorrect) = [] := by
      rw [List.filter_eq_nil_iff]
      intro c hc
      simp [hnc c hc]
    rw [hnil]
    rfl
  have hok : isCorrectAnswer q.type (submittedSet ids) (correctSet q) = true := by
    rw [ht, hsub, hcor]
    simp [isCorrectAnswer]
  refine ⟨hok, ?_⟩
  have hfq : findQuestion [q] q.id = some q := by
    simp [findQuestion, List.find?]
  have hse : scoreEntry [q] ⟨q.id, ids⟩ = .ok true := by
    simp only [scoreEntry, hfq]
    rw [if_neg]
    · rw [hok]
    · rw [hsub]
      simp
  simp only [scoreAnswers, hse]
  norm_num

theorem empty_correct_set_scores_correct_witness :
    isCorrectAnswer QuestionType.MULTIPLE_CHOICE
        (submittedSet [""]) (correctSet ⟨"q3", .MULTIPLE_CHOICE, [⟨"C", false⟩]⟩) = true ∧
      scoreAnswers [⟨"q3", .MULTIPLE_CHOICE, [⟨"C", false⟩]⟩]
        [⟨"q3", [""]⟩] = .ok 1 :=
  empty_correct_set_scores_correct ⟨"q3", .MULTIPLE_CHOICE, [⟨"C", false⟩]⟩ [""]
    rfl (by decide) (by decide)

/-- Claim C2 (counterexample): a submit request repeating the same correct
questionId in two entries is accepted and returns score 2 on a quiz with a
single question, so the score exceeds both the number of distinct correct
questions and totalQuestions. -/
theorem duplicate_entries_score_cex :
    (submitOp storeA1 "u" "z" (some "a1") [qSingle]
        [⟨"q1", ["A"]⟩, ⟨"q1", ["A"]⟩] "a2" 9).toOption.map (fun p => p.2) =
      some ⟨"a1", 2, 1, 1⟩ ∧ (1 : Nat) < 2 := by
  constructor
  · decide
  · decide

/-- Claim C2 (amended): for every accepted submit request the returned score
equals the number of answer entries (counted with multiplicity) whose
submitted choice set satisfies the correctness rule for the referenced
question; when the entries reference pairwise-distinct questionIds this
coincides with the number of distinct correct questions and the score never
exceeds totalQuestions, but a duplicated questionId is counted once per
entry and can push the score above totalQuestions. -/
theorem score_counts_entries (questions : List Question) (entries : List AnswerEntry)
    (s : Nat) (h : scoreAnswers questions entries = .ok s) :
    s = entries.countP (entryCorrect questions) ∧
      ((entries.map (fun a => a.questionId)).Nodup → s ≤ questions.length) := by
  refine ⟨scoreAnswers_ok_count questions entries s h, ?_⟩
  intro hnd
  have hsub : ∀ a ∈ entries, a.questionId ∈ questions.map (fun q => q.id) := by
    intro a ha
    obtain ⟨b, hb⟩ := scoreAnswers_ok_forall questions entries s h a ha
    cases hf : findQuestion questions a.questionId with
    | none => simp [scoreEntry, hf] at hb
    | some q =>
      obtain ⟨hqm, hqid⟩ := findQuestion_some questions a.questionId q hf
      exact List.mem_map.mpr ⟨q, hqm, hqid⟩
  have hsub' : entries.map (fun a => a.questionId) ⊆ questions.map (fun q => q.id) := by
    intro x hx
    obtain ⟨a, ha, rfl⟩ := List.mem_map.mp hx
    exact hsub a ha
  have hlen : entries.length ≤ questions.length := by
    have h1 : (entries.map (fun a => a.questionId)).toFinset.card =
        (entries.map (fun a => a.questionId)).length := List.toFinset_card_of_nodup hnd
    have h2 : (entries.map (fun a => a.questionId)).toFinset ⊆
        (questions.map (fun q => q.id)).toFinset := by
      intro x hx
      rw [List.mem_toFinset] at hx ⊢
      exact hsub' hx
    have h3 := Finset.card_le_card h2
    have h4 := (questions.map (fun q => q.id)).toFinset_card_le
    simp only [List.length_map] at h1
    rw [List.length_map] at h4
    omega
  have hcount : entries.countP (entryCorrect questions) ≤ entries.length :=
    List.countP_le_length _
  have hs := scoreAnswers_ok_count questions entries s h
  omega

theorem score_counts_entries_witness :
    (2 : Nat) = ([⟨"q1", ["A"]⟩, ⟨"q1", ["A"]⟩] : List AnswerEntry).countP
        (entryCorrect [qSingle]) ∧
      ((([⟨"q1", ["A"]⟩, ⟨"q2", ["C", "D"]⟩] : List AnswerEntry).map
          (fun a => a.questionId)).Nodup → (2 : Nat) ≤ [qSingle, qMulti].length) := by
  constructor
  · exact (score_counts_entries [qSingle] [⟨"q1", ["A"]⟩, ⟨"q1", ["A"]⟩] 2 (by decide)).1
  · exact (score_counts_entries [qSingle, qMulti]
      [⟨"q1", ["A"]⟩, ⟨"q2", ["C", "D"]⟩] 2 (by decide)).2

/-- Claim C3 (counterexample): an answer entry may reference the empty-string
choiceId, which belongs to no choice of the referenced question, yet the
validate-and-score phase does not reject the request with a 400-class error:
falsy choiceIds are filtered out before validation. -/
theorem falsy_choice_id_not_rejected_cex :
    scoreAnswers [qSingle] [⟨"q1", [""]⟩] = .ok 0 ∧
      ("" ∈ (⟨"q1", [""]⟩ : AnswerEntry).choiceIds) ∧
      ¬ ("" ∈ validChoiceIds qSingle) := by
  refine ⟨by decide, by decide, by decide⟩

/-- Claim C3 (amended): if any answer entry references a questionId not
belonging to the quiz, or a non-empty choiceId not belonging to the
referenced question, the whole submit request fails with a 400-class error
and the store is left unchanged; empty-string (falsy) choiceIds are dropped
before validation and never trigger the rejection. -/
theorem invalid_reference_rejected (st : Store) (u z newId : String)
    (hint : Option String) (questions : List Question) (entries : List AnswerEntry)
    (now : Nat) (hnd : (questions.map (fun q => q.id)).Nodup)
    (hbad : ∃ a ∈ entries, invalidEntry questions a) :
    (∃ m, submitOp st u z hint questions entries newId now = .error m) ∧
      submitStep st u z hint questions entries newId now = st := by
  by_cases hq : questions.length = 0
  · refine ⟨⟨emptyQuizMsg, ?_⟩, ?_⟩
    · rw [submitOp, if_pos hq]
    · rw [submitStep, submitOp, if_pos hq]
  · obtain ⟨m, hm⟩ := scoreAnswers_error_of_invalid questions entries hnd hbad
    refine ⟨⟨m, ?_⟩, ?_⟩
    · rw [submitOp, if_neg hq, hm]
    · rw [submitStep, submitOp, if_neg hq, hm]

theorem invalid_reference_rejected_witness :
    ((∃ m, submitOp storeA1 "u" "z" none [qSingle] [⟨"qX", ["A"]⟩] "a2" 9 = .error m) ∧
      submitStep storeA1 "u" "z" none [qSingle] [⟨"qX", ["A"]⟩] "a2" 9 = storeA1) ∧
      ((∃ m, submitOp storeA1 "u" "z" none [qSingle] [⟨"q1", ["X"]⟩] "a2" 9 = .error m) ∧
        submitStep storeA1 "u" "z" none [qSingle] [⟨"q1", ["X"]⟩] "a2" 9 = storeA1) := by
  constructor
  · exact invalid_reference_rejected storeA1 "u" "z" "a2" none [qSingle]
      [⟨"qX", ["A"]⟩] 9 (by decide) ⟨⟨"qX", ["A"]⟩, by decide, Or.inl (by decide)⟩
  · exact invalid_reference_rejected storeA1 "u" "z" "a2" none [qSingle]
      [⟨"q1", ["X"]⟩] 9 (by decide)
      ⟨⟨"q1", ["X"]⟩, by decide, Or.inr ⟨qSingle, by decide, by decide,
        "X", by decide, by decide, by decide⟩⟩

/-- Claim C1 (counterexample): with an IN_PROGRESS attempt on record and no
attemptId hint supplied, submit creates a brand-new attempt instead of using
the most recently started IN_PROGRESS attempt, which stays IN_PROGRESS. -/
theorem submit_ignores_in_progress_cex :
    latestInProgress storeA1 "u" "z" = some rowA1 ∧
      (submitOp storeA1 "u" "z" none [qSingle] [⟨"q1", ["A"]⟩] "a2" 9).toOption.map
        (fun p => p.2.attemptId) = some "a2" ∧
      "a2" ≠ "a1" ∧
      (submitOp storeA1 "u" "z" none [qSingle] [⟨"q1", ["A"]⟩] "a2" 9).toOption.map
        (fun p => (p.1.attempts.filter (fun r => decide (r.id = "a1"))).map
          (fun r => r.status)) = some [.IN_PROGRESS] := by
  refine ⟨by decide, by decide, by decide, by decide⟩

/-- Claim C1 (amended): in save, a supplied hint is used only when it matches
an attempt with that id, the requesting user, the given quiz and status
IN_PROGRESS, and a hint that matches nothing leads to a brand-new attempt
with the next attemptNo (no fallback); without a hint, save uses the most
recently started IN_PROGRESS attempt and creates a new one only when none
exists. In submit, only a supplied matching hint is reused; otherwise — no
hint, or a hint matching nothing — a brand-new attempt is created with the
next attemptNo even when an IN_PROGRESS attempt exists. -/
theorem attempt_resolution_rules (st : Store) (u z aid newId : String)
    (entries : List AnswerEntry) (questions : List Question) (now : Nat) :
    (∀ a, findHintedAttempt st aid u z = some a →
      saveOp st u z (some aid) entries newId now =
        ({ st with answers := upsertAnswers st.answers a.id entries },
          ⟨a.id, a.attemptNo⟩)) ∧
    (findHintedAttempt st aid u z = none →
      (saveOp st u z (some aid) entries newId now).2 =
        ⟨newId, maxAttemptNo st.attempts u z + 1⟩) ∧
    (∀ a, latestInProgress st u z = some a →
      (saveOp st u z none entries newId now).2 = ⟨a.id, a.attemptNo⟩) ∧
    (latestInProgress st u z = none →
      (saveOp st u z none entries newId now).2 =
        ⟨newId, maxAttemptNo st.attempts u z + 1⟩) ∧
    (∀ a s, findHintedAttempt st aid u z = some a →
      scoreAnswers questions entries = .ok s → questions ≠ [] →
      (submitOp st u z (some aid) questions entries newId now).toOption.map
          (fun p => p.2) = some ⟨a.id, s, a.attemptNo, questions.length⟩) ∧
    (∀ s, findHintedAttempt st aid u z = none →
      scoreAnswers questions entries = .ok s → questions ≠ [] →
      (submitOp st u z (some aid) questions entries newId now).toOption.map
          (fun p => p.2) =
        some ⟨newId, s, maxAttemptNo st.attempts u z + 1, questions.length⟩) ∧
    (∀ s, scoreAnswers questions entries = .ok s → questions ≠ [] →
      (submitOp st u z none questions entries newId now).toOption.map
          (fun p => p.2) =
        some ⟨newId, s, maxAttemptNo st.attempts u z + 1, questions.length⟩) := by
  refine ⟨?_, ?_, ?_, ?_, ?_, ?_, ?_⟩
  · intro a ha
    simp only [saveOp, resolveSaveAttempt, ha]
  · intro hnone
    simp only [saveOp, resolveSaveAttempt, hnone]
  · intro a ha
    simp only [saveOp, resolveSaveAttempt, ha]
  · intro hnone
    simp only [saveOp, resolveSaveAttempt, hnone]
  · intro a s ha hs hq
    have hlen : ¬ questions.length = 0 := by
      simpa [List.length_eq_zero] using hq
    simp only [submitOp, if_neg hlen, hs, ha, Except.toOption, Option.map]
  · intro s hnone hs hq
    have hlen : ¬ questions.length = 0 := by
      simpa [List.length_eq_zero] using hq
    simp only [submitOp, if_neg hlen, hs, hnone, submitFresh, Except.toOption, Option.map]
  · intro s hs hq
    have hlen : ¬ questions.length = 0 := by
      simpa [List.length_eq_zero] using hq
    simp only [submitOp, if_neg hlen, hs, submitFresh, Except.toOption, Option.map]

theorem attempt_resolution_rules_witness :
    (saveOp storeA1 "u" "z" (some "a1") [] "n1" 7 =
      ({ storeA1 with answers := upsertAnswers storeA1.answers "a1" [] }, ⟨"a1", 1⟩)) ∧
    ((saveOp storeA1 "u" "z" (some "zz") [] "n1" 7).2 =
      ⟨"n1", maxAttemptNo storeA1.attempts "u" "z" + 1⟩) ∧
    ((saveOp storeA1 "u" "z" none [] "n1" 7).2 = ⟨"a1", 1⟩) ∧
    ((saveOp storeA1 "u2" "z" none [] "n1" 7).2 =
      ⟨"n1", maxAttemptNo storeA1.attempts "u2" "z" + 1⟩) ∧
    ((submitOp storeA1 "u" "z" (some "a1") [qSingle] [⟨"q1", ["A"]⟩] "n1" 7).toOption.map
      (fun p => p.2) = some ⟨"a1", 1, 1, 1⟩) ∧
    ((submitOp storeA1 "u" "z" (some "zz") [qSingle] [⟨"q1", ["A"]⟩] "n1" 7).toOption.map
      (fun p => p.2) = some ⟨"n1", 1, maxAttemptNo storeA1.attempts "u" "z" + 1, 1⟩) ∧
    ((submitOp storeA1 "u" "z" none [qSingle] [⟨"q1", ["A"]⟩] "n1" 7).toOption.map
      (fun p => p.2) = some ⟨"n1", 1, maxAttemptNo storeA1.attempts "u" "z" + 1, 1⟩) := by
  refine ⟨?_, ?_, ?_, ?_, ?_, ?_, ?_⟩
  · exact (attempt_resolution_rules storeA1 "u" "z" "a1" "n1" [] [] 7).1 rowA1 (by decide)
  · exact (attempt_resolution_rules storeA1 "u" "z" "zz" "n1" [] [] 7).2.1 (by decide)
  · exact (attempt_resolution_rules storeA1 "u" "z" "a1" "n1" [] [] 7).2.2.1 rowA1 (by decide)
  · exact (attempt_resolution_rules storeA1 "u2" "z" "a1" "n1" [] [] 7).2.2.2.1 (by decide)
  · exact (attempt_resolution_rules storeA1 "u" "z" "a1" "n1" [⟨"q1", ["A"]⟩]
      [qSingle] 7).2.2.2.2.1 rowA1 1 (by decide) (by decide) (by decide)
  · exact (attempt_resolution_rules storeA1 "u" "z" "zz" "n1" [⟨"q1", ["A"]⟩]
      [qSingle] 7).2.2.2.2.2.1 1 (by decide) (by decide) (by decide)
  · exact (attempt_resolution_rules storeA1 "u" "z" "a1" "n1" [⟨"q1", ["A"]⟩]
      [qSingle] 7).2.2.2.2.2.2 1 (by decide) (by decide)

/-- Sample question rows used by the reorder witness. -/
def rowQa : QuestionRow := ⟨"qa", "z", "pa", 0⟩

/-- Second sample question row used by the reorder witness. -/
def rowQb : QuestionRow := ⟨"qb", "z", "pb", 1⟩

/-- Claim C9 (code bug): the reorder helper is meant to swap the order values
of the target question and its immediate neighbor, but the first of its two
sequential updates gives the target the neighbor's order while the neighbor
still holds it, violating the non-deferrable unique index
Question_quizId_order_key; the statement errors, the transaction rolls back,
and the route answers with a 400-class error. So on a table satisfying the
unique (quizId, order) index, the operation fails with the
unique-violation error whenever a neighbor exists, and only the
no-neighbor case succeeds (changing nothing). -/
theorem move_always_violates_unique_index (qs : List QuestionRow) (q : QuestionRow)
    (dir : MoveDir) (hid : (qs.map (fun r => r.id)).Nodup) (hq : q ∈ qs)
    (_hkeys : (qs.map (fun r => (r.quizId, r.order))).Nodup) :
    (findNeighbor qs q dir = none → moveQuestion qs q.id dir = .ok qs) ∧
    (∀ n, findNeighbor qs q dir = some n →
      moveQuestion qs q.id dir = .error uniqueViolationMsg) := by
  have hfind : qs.find? (fun r => decide (r.id = q.id)) = some q := by
    apply find_unique qs (fun r => r.id) _ q hid hq
    · exact decide_eq_true rfl
    · intro y hy
      exact of_decide_eq_true hy
  constructor
  · intro hnone
    simp only [moveQuestion, hfind, hnone]
  · intro n hsome
    have hside : n ∈ qs ∧ n.quizId = q.quizId ∧ n.order ≠ q.order := by
      cases dir with
      | UP =>
        obtain ⟨hmem, hp, -⟩ := argmaxBy_some _ _ qs n hsome
        obtain ⟨hquiz, hlt⟩ := of_decide_eq_true hp
        exact ⟨hmem, hquiz, by omega⟩
      | DOWN =>
        obtain ⟨hmem, hp, -⟩ := argmaxBy_some _ _ qs n hsome
        obtain ⟨hquiz, hlt⟩ := of_decide_eq_true hp
        exact ⟨hmem, hquiz, by omega⟩
    obtain ⟨hmem, hquiz, hneq⟩ := hside
    have hidne : n.id ≠ q.id := by
      intro hc
      have := List.inj_on_of_nodup_map hid hmem hq hc
      exact hneq (by rw [this])
    have hfalse : ¬ (orderKeysNodup (qs.map (fun r =>
        if r.id = q.id then { r with order := n.order } else r)) = true) := by
      intro htrue
      rw [orderKeysNodup] at htrue
      have hnodup := of_decide_eq_true htrue
      have hmemq : (fun r : QuestionRow =>
          if r.id = q.id then { r with order := n.order } else r) q ∈
          qs.map (fun r => if r.id = q.id then { r with order := n.order } else r) :=
        List.mem_map_of_mem _ hq
      have hmemn : (fun r : QuestionRow =>
          if r.id = q.id then { r with order := n.order } else r) n ∈
          qs.map (fun r => if r.id = q.id then { r with order := n.order } else r) :=
        List.mem_map_of_mem _ hmem
      have hfq : (fun r : QuestionRow =>
          if r.id = q.id then { r with order := n.order } else r) q =
          { q with order := n.order } := if_pos rfl
      have hfn : (fun r : QuestionRow =>
          if r.id = q.id then { r with order := n.order } else r) n = n := if_neg hidne
      have hkeyeq : (fun r : QuestionRow => (r.quizId, r.order))
          ((fun r : QuestionRow =>
            if r.id = q.id then { r with order := n.order } else r) q) =
          (fun r : QuestionRow => (r.quizId, r.order))
          ((fun r : QuestionRow =>
            if r.id = q.id then { r with order := n.order } else r) n) := by
        rw [hfq, hfn]
        show (q.quizId, n.order) = (n.quizId, n.order)
        rw [hquiz]
      have heq := List.inj_on_of_nodup_map hnodup hmemq hmemn hkeyeq
      rw [hfq, hfn] at heq
      have hqid := congrArg (fun r : QuestionRow => r.id) heq
      simp only at hqid
      exact hidne hqid.symm
    simp only [moveQuestion, hfind, hsome, updateQuestionOrder]
    rw [if_neg hfalse]

theorem move_always_violates_unique_index_witness :
    moveQuestion [rowQa, rowQb] "qb" MoveDir.UP = .error uniqueViolationMsg ∧
      moveQuestion [rowQa, rowQb] "qa" MoveDir.UP = .ok [rowQa, rowQb] := by
  constructor
  · exact (move_always_violates_unique_index [rowQa, rowQb] rowQb MoveDir.UP
      (by decide) (by decide) (by decide)).2 rowQa (by decide)
  · exact (move_always_violates_unique_index [rowQa, rowQb] rowQa MoveDir.UP
      (by decide) (by decide) (by decide)).1 (by decide)

theorem resolveSaveAttempt_some (st : Store) (u z : String) (hint : Option String)
    (a : AttemptRow) (h : resolveSaveAttempt st u z hint = some a) :
    a ∈ st.attempts ∧ a.userId = u ∧ a.quizId = z ∧
      a.status = AttemptStatus.IN_PROGRESS := by
  cases hint with
  | some aid =>
    obtain ⟨hm, _, hu, hz, hs⟩ := findHintedAttempt_some st aid u z a h
    exact ⟨hm, hu, hz, hs⟩
  | none =>
    obtain ⟨hm, hp, -⟩ := argmaxBy_some _ _ st.attempts a h
    obtain ⟨hu, hz, hs⟩ := of_decide_eq_true hp
    exact ⟨hm, hu, hz, hs⟩

/-- Claim C6: every attempt transitions from IN_PROGRESS to SUBMITTED at most
once: both operations resolve and write only IN_PROGRESS attempts, so once an
attempt is SUBMITTED neither save nor submit modifies its row (status, score,
submittedAt) or its answer rows again. -/
theorem submitted_attempt_immutable (st : Store) (u z newId : String)
    (hint : Option String) (entries : List AnswerEntry) (questions : List Question)
    (now : Nat) (r : AttemptRow)
    (hid : (st.attempts.map (fun x => x.id)).Nodup)
    (hr : r ∈ st.attempts) (hsub : r.status = AttemptStatus.SUBMITTED)
    (hfresh : ¬ newId ∈ st.attempts.map (fun x => x.id)) :
    ((saveOp st u z hint entries newId now).1.attempts.filter
        (fun a => decide (a.id = r.id)) = [r] ∧
      answersFor (saveOp st u z hint entries newId now).1.answers r.id =
        answersFor st.answers r.id) ∧
    (∀ st' res, submitOp st u z hint questions entries newId now = .ok (st', res) →
      st'.attempts.filter (fun a => decide (a.id = r.id)) = [r] ∧
      answersFor st'.answers r.id = answersFor st.answers r.id) := by
  have hfilter : st.attempts.filter (fun a => decide (a.id = r.id)) = [r] :=
    filter_eq_singleton st.attempts (fun x => x.id) r hid hr
  have hnid : newId ≠ r.id := by
    intro hc
    exact hfresh (by rw [hc]; exact List.mem_map.mpr ⟨r, hr, rfl⟩)
  have hinprog_ne : ∀ a, a ∈ st.attempts → a.status = AttemptStatus.IN_PROGRESS →
      a.id ≠ r.id := by
    intro a ham hast hc
    have heq := List.inj_on_of_nodup_map hid ham hr hc
    rw [heq, hsub] at hast
    cases hast
  constructor
  · cases hres : resolveSaveAttempt st u z hint with
    | some a =>
      obtain ⟨ham, hau, haz, hast⟩ := resolveSaveAttempt_some st u z hint a hres
      have haid := hinprog_ne a ham hast
      simp only [saveOp, hres]
      exact ⟨hfilter,
        upsertAnswers_answersFor_ne st.answers a.id entries r.id (fun hc => haid hc.symm)⟩
    | none =>
      simp only [saveOp, hres]
      constructor
      · rw [List.filter_append, hfilter]
        have hone : ([⟨newId, u, z, maxAttemptNo st.attempts u z + 1,
            .IN_PROGRESS, now, none, none⟩] : List AttemptRow).filter
              (fun a => decide (a.id = r.id)) = [] := by
          simp [hnid]
        rw [hone, List.append_nil]
      · apply answersFor_append_ne
        intro x hx
        obtain ⟨e, he, rfl⟩ := List.mem_map.mp hx
        exact hnid
  · intro st' res hok
    by_cases hq0 : questions.length = 0
    · rw [submitOp, if_pos hq0] at hok
      cases hok
    · cases hscore : scoreAnswers questions entries with
      | error m =>
        rw [submitOp, if_neg hq0, hscore] at hok
        cases hok
      | ok s =>
        have hfreshcase : ∀ st2 res2,
            submitFresh st u z s entries newId now questions.length = (st2, res2) →
            st2.attempts.filter (fun a => decide (a.id = r.id)) = [r] ∧
              answersFor st2.answers r.id = answersFor st.answers r.id := by
          intro st2 res2 hfr
          rw [submitFresh] at hfr
          injection hfr with h1 h2
          subst h1
          constructor
          · rw [List.filter_append, hfilter]
            have hone : ([⟨newId, u, z, maxAttemptNo st.attempts u z + 1,
                .SUBMITTED, now, some now, some s⟩] : List AttemptRow).filter
                  (fun a => decide (a.id = r.id)) = [] := by
              simp [hnid]
            rw [hone, List.append_nil]
          · apply answersFor_append_ne
            intro x hx
            obtain ⟨e, he, rfl⟩ := List.mem_map.mp hx
            exact hnid
        cases hint with
        | some aid =>
          cases hfa : findHintedAttempt st aid u z with
          | some a =>
            obtain ⟨ham, -, hau, haz, hast⟩ := findHintedAttempt_some st aid u z a hfa
            have haid := hinprog_ne a ham hast
            rw [submitOp, if_neg hq0] at hok
            simp only [hscore, hfa] at hok
            injection hok with hpair
            injection hpair with h1 h2
            subst h1
            constructor
            · rw [filter_map_invariant]
              · exact hfilter
              · intro x
                by_cases hxa : x.id = a.id
                · simp [hxa]
                · simp [hxa]
              · intro x hx
                rw [if_neg]
                intro hc
                exact haid (hc ▸ of_decide_eq_true hx)
            · exact upsertAnswers_answersFor_ne st.answers a.id entries r.id
                (fun hc => haid hc.symm)
          | none =>
            rw [submitOp, if_neg hq0] at hok
            simp only [hscore, hfa] at hok
            injection hok with hpair
            exact hfreshcase st' res (by rw [← hpair])
        | none =>
          rw [submitOp, if_neg hq0] at hok
          simp only [hscore] at hok
          injection hok with hpair
          exact hfreshcase st' res (by rw [← hpair])

/-- Sample SUBMITTED attempt row used by witnesses. -/
def rowSub : AttemptRow := ⟨"a0", "u", "z", 1, .SUBMITTED, 3, some 4, some 1⟩

/-- Sample store holding one SUBMITTED and one IN_PROGRESS attempt. -/
def storeSub : Store := ⟨[rowSub, rowA1], [⟨"a0", "q1", {"A"}⟩]⟩

theorem submitted_attempt_immutable_witness :
    (saveOp storeSub "u" "z" (some "a1") [⟨"q1", ["A"]⟩] "n1" 9).1.attempts.filter
        (fun a => decide (a.id = rowSub.id)) = [rowSub] ∧
      answersFor (saveOp storeSub "u" "z" (some "a1") [⟨"q1", ["A"]⟩] "n1" 9).1.answers
        rowSub.id = answersFor storeSub.answers rowSub.id :=
  (submitted_attempt_immutable storeSub "u" "z" "n1" (some "a1") [⟨"q1", ["A"]⟩]
    [qSingle] 9 rowSub (by decide) (by decide) (by decide) (by decide)).1

theorem pairNos_saveOp (st : Store) (u z u' z' : String) (hint : Option String)
    (entries : List AnswerEntry) (newId : String) (now : Nat) :
    pairNos (saveOp st u' z' hint entries newId now).1.attempts u z = pairNos st.attempts u z ∨
      (pairNos (saveOp st u' z' hint entries newId now).1.attempts u z =
        pairNos st.attempts u z ++ [maxAttemptNo st.attempts u z + 1] ∧ u' = u ∧ z' = z) := by
  cases hres : resolveSaveAttempt st u' z' hint with
  | some a =>
    left
    simp only [saveOp, hres]
  | none =>
    simp only [saveOp, hres]
    rw [pairNos_append]
    by_cases hpair : u' = u ∧ z' = z
    · right
      obtain ⟨hu, hz⟩ := hpair
      subst hu
      subst hz
      refine ⟨?_, rfl, rfl⟩
      congr 1
      simp [pairNos]
    · left
      have hnil : pairNos ([⟨newId, u', z', maxAttemptNo st.attempts u' z' + 1,
          .IN_PROGRESS, now, none, none⟩] : List AttemptRow) u z = [] := by
        simp only [pairNos, List.filter_cons, List.filter_nil]
        rw [if_neg]
        · rfl
        · simp only [decide_eq_true_eq]
          exact hpair
      rw [hnil, List.append_nil]

theorem pairNos_submitFresh (st : Store) (u z u' z' : String) (score : Nat)
    (entries : List AnswerEntry) (newId : String) (now : Nat) (total : Nat) :
    pairNos (submitFresh st u' z' score entries newId now total).1.attempts u z =
        pairNos st.attempts u z ∨
      (pairNos (submitFresh st u' z' score entries newId now total).1.attempts u z =
        pairNos st.attempts u z ++ [maxAttemptNo st.attempts u z + 1] ∧ u' = u ∧ z' = z) := by
  simp only [submitFresh]
  rw [pairNos_append]
  by_cases hpair : u' = u ∧ z' = z
  · right
    obtain ⟨hu, hz⟩ := hpair
    subst hu
    subst hz
    refine ⟨?_, rfl, rfl⟩
    congr 1
    simp [pairNos]
  · left
    have hnil : pairNos ([⟨newId, u', z', maxAttemptNo st.attempts u' z' + 1,
        .SUBMITTED, now, some now, some score⟩] : List AttemptRow) u z = [] := by
      simp only [pairNos, List.filter_cons, List.filter_nil]
      rw [if_neg]
      · rfl
      · simp only [decide_eq_true_eq]
        exact hpair
    rw [hnil, List.append_nil]

theorem pairNos_submitStep (st : Store) (u z u' z' : String) (hint : Option String)
    (questions : List Question) (entries : List AnswerEntry) (newId : String) (now : Nat) :
    pairNos (submitStep st u' z' hint questions entries newId now).attempts u z =
        pairNos st.attempts u z ∨
      (pairNos (submitStep st u' z' hint questions entries newId now).attempts u z =
        pairNos st.attempts u z ++ [maxAttemptNo st.attempts u z + 1] ∧ u' = u ∧ z' = z) := by
  rw [submitStep]
  by_cases hq0 : questions.length = 0
  · left
    rw [submitOp, if_pos hq0]
  · rw [submitOp, if_neg hq0]
    cases hscore : scoreAnswers questions entries with
    | error m => left; rfl
    | ok s =>
      cases hint with
      | some aid =>
        cases hfa : findHintedAttempt st aid u' z' with
        | some a =>
          left
          simp only [hfa]
          apply pairNos_map_preserve
          intro x
          by_cases hxa : x.id = a.id
          · simp [hxa]
          · simp [hxa]
        | none =>
          simp only [hfa]
          exact pairNos_submitFresh st u z u' z' s entries newId now questions.length
      | none =>
        exact pairNos_submitFresh st u z u' z' s entries newId now questions.length

theorem pairNos_applyOp (st : Store) (u z : String) (op : Op) :
    ∃ ext, pairNos (applyOp st op).attempts u z = pairNos st.attempts u z ++ ext ∧
      List.Pairwise (fun a b => a < b) ext ∧
      ∀ m ∈ pairNos st.attempts u z, ∀ n ∈ ext, m < n := by
  have hstep : pairNos (applyOp st op).attempts u z = pairNos st.attempts u z ∨
      pairNos (applyOp st op).attempts u z =
        pairNos st.attempts u z ++ [maxAttemptNo st.attempts u z + 1] := by
    cases op with
    | save u' z' hint entries newId now =>
      rcases pairNos_saveOp st u z u' z' hint entries newId now with h | ⟨h, -, -⟩
      · exact Or.inl h
      · exact Or.inr h
    | submit u' z' hint questions entries newId now =>
      rcases pairNos_submitStep st u z u' z' hint questions entries newId now with h | ⟨h, -, -⟩
      · exact Or.inl h
      · exact Or.inr h
  rcases hstep with h | h
  · exact ⟨[], by simpa using h, List.Pairwise.nil, by simp⟩
  · refine ⟨[maxAttemptNo st.attempts u z + 1], h, by simp, ?_⟩
    intro m hm n hn
    rw [List.mem_singleton] at hn
    subst hn
    have := pairNos_le_max st.attempts u z m hm
    omega

/-- Claim C7: whenever save or submit creates a new attempt it assigns
attemptNo = (max existing attemptNo for that user and quiz, default 0) + 1;
consequently, across any sequential run of save and submit requests, the
attemptNos recorded for a (user, quiz) pair only grow by a strictly
increasing suffix of fresh numbers, each larger than every number already
present — strictly increasing and never reused. -/
theorem attempt_no_fresh_and_increasing (st : Store) (ops : List Op) (u z : String) :
    (∀ hint entries newId now, resolveSaveAttempt st u z hint = none →
      (saveOp st u z hint entries newId now).2.attemptNo =
        maxAttemptNo st.attempts u z + 1 ∧
      ∀ r ∈ st.attempts, r.userId = u → r.quizId = z →
        r.attemptNo < (saveOp st u z hint entries newId now).2.attemptNo) ∧
    (∀ questions entries newId now s,
      scoreAnswers questions entries = .ok s → questions ≠ [] →
      (hint : Option String) →
      (hint = none ∨ ∃ aid, hint = some aid ∧ findHintedAttempt st aid u z = none) →
      (submitOp st u z hint questions entries newId now).toOption.map
          (fun p => p.2.attemptNo) = some (maxAttemptNo st.attempts u z + 1)) ∧
    (∃ ext, pairNos (runOps st ops).attempts u z = pairNos st.attempts u z ++ ext ∧
      List.Pairwise (fun a b => a < b) ext ∧
      ∀ m ∈ pairNos st.attempts u z, ∀ n ∈ ext, m < n) := by
  refine ⟨?_, ?_, ?_⟩
  · intro hint entries newId now hres
    constructor
    · simp only [saveOp, hres]
    · intro r hr hu hz
      have hle := le_maxAttemptNo st.attempts u z r hr hu hz
      simp only [saveOp, hres]
      omega
  · intro questions entries newId now s hs hq hint hcase
    have hlen : ¬ questions.length = 0 := by
      simpa [List.length_eq_zero] using hq
    rcases hcase with rfl | ⟨aid, rfl, hfa⟩
    · simp only [submitOp, if_neg hlen, hs, submitFresh, Except.toOption, Option.map]
    · simp only [submitOp, if_neg hlen, hs, hfa, submitFresh, Except.toOption, Option.map]
  · induction ops generalizing st with
    | nil => exact ⟨[], by simp [runOps], List.Pairwise.nil, by simp⟩
    | cons op rest ih =>
      obtain ⟨ext1, h1, hp1, hlt1⟩ := pairNos_applyOp st u z op
      obtain ⟨ext2, h2, hp2, hlt2⟩ := ih (applyOp st op)
      refine ⟨ext1 ++ ext2, ?_, ?_, ?_⟩
      · rw [runOps, h2, h1, List.append_assoc]
      · rw [List.pairwise_append]
        refine ⟨hp1, hp2, ?_⟩
        intro a ha b hb
        have hmem : a ∈ pairNos (applyOp st op).attempts u z := by
          rw [h1]
          exact List.mem_append_right _ ha
        exact hlt2 a hmem b hb
      · intro m hm n hn
        rcases List.mem_append.mp hn with hn1 | hn2
        · exact hlt1 m hm n hn1
        · have hmem : m ∈ pairNos (applyOp st op).attempts u z := by
            rw [h1]
            exact List.mem_append_left _ hm
          exact hlt2 m hmem n hn2

/-- Empty store used by witnesses. -/
def storeEmpty : Store := ⟨[], []⟩

theorem attempt_no_fresh_and_increasing_witness :
    ((saveOp storeEmpty "u" "z" none [] "n1" 3).2.attemptNo =
      maxAttemptNo storeEmpty.attempts "u" "z" + 1) ∧
    ((submitOp storeA1 "u" "z" none [qSingle] [⟨"q1", ["A"]⟩] "n2" 4).toOption.map
      (fun p => p.2.attemptNo) = some (maxAttemptNo storeA1.attempts "u" "z" + 1)) ∧
    (∃ ext, pairNos (runOps storeEmpty [Op.save "u" "z" none [] "n1" 3,
        Op.submit "u" "z" none [qSingle] [⟨"q1", ["A"]⟩] "n2" 4]).attempts "u" "z" =
      pairNos storeEmpty.attempts "u" "z" ++ ext ∧
      List.Pairwise (fun a b => a < b) ext ∧
      ∀ m ∈ pairNos storeEmpty.attempts "u" "z", ∀ n ∈ ext, m < n) := by
  refine ⟨?_, ?_, ?_⟩
  · exact ((attempt_no_fresh_and_increasing storeEmpty [] "u" "z").1
      none [] "n1" 3 (by decide)).1
  · exact (attempt_no_fresh_and_increasing storeA1 [] "u" "z").2.1 [qSingle]
      [⟨"q1", ["A"]⟩] "n2" 4 1 (by decide) (by decide) none (Or.inl rfl)
  · exact (attempt_no_fresh_and_increasing storeEmpty [Op.save "u" "z" none [] "n1" 3,
      Op.submit "u" "z" none [qSingle] [⟨"q1", ["A"]⟩] "n2" 4] "u" "z").2.2

/-- Claim C8: the save upsert is idempotent: a second save with an identical
answers array against the same IN_PROGRESS attempt returns the same result
and leaves the store unchanged, and after a save the store holds exactly one
answer row per (attempt, question) pair of the request, whose choice set is
the submitted choiceIds treated as a set. -/
theorem save_upsert_idempotent (st : Store) (u z : String) (A : AttemptRow)
    (entries : List AnswerEntry) (newId newId2 : String) (now now2 : Nat)
    (hid : (st.attempts.map (fun x => x.id)).Nodup)
    (hA : A ∈ st.attempts) (hu : A.userId = u) (hz : A.quizId = z)
    (hst : A.status = AttemptStatus.IN_PROGRESS)
    (hkeys : (keysOf st.answers).Nodup)
    (hnd : (entries.map (fun e => e.questionId)).Nodup) :
    (saveOp st u z (some A.id) entries newId now).2 = ⟨A.id, A.attemptNo⟩ ∧
    (∀ e ∈ entries,
      (saveOp st u z (some A.id) entries newId now).1.answers.filter
        (keyMatch A.id e.questionId) = [⟨A.id, e.questionId, e.choiceIds.toFinset⟩]) ∧
    saveOp (saveOp st u z (some A.id) entries newId now).1 u z (some A.id) entries
        newId2 now2 =
      ((saveOp st u z (some A.id) entries newId now).1, ⟨A.id, A.attemptNo⟩) := by
  have hfind : findHintedAttempt st A.id u z = some A :=
    findHintedAttempt_of_mem st u z A hid hA hu hz hst
  have hsave1 : saveOp st u z (some A.id) entries newId now =
      ({ st with answers := upsertAnswers st.answers A.id entries },
        ⟨A.id, A.attemptNo⟩) := by
    simp only [saveOp, resolveSaveAttempt, hfind]
  have hfix : upsertAnswers (upsertAnswers st.answers A.id entries) A.id entries =
      upsertAnswers st.answers A.id entries := by
    apply upsertAnswers_fix
    intro e he
    exact upsertAnswers_filter_hit st.answers A.id entries e hkeys hnd he
  refine ⟨by rw [hsave1], ?_, ?_⟩
  · intro e he
    rw [hsave1]
    exact upsertAnswers_filter_hit st.answers A.id entries e hkeys hnd he
  · rw [hsave1]
    have hfind2 : findHintedAttempt
        ({ st with answers := upsertAnswers st.answers A.id entries }) A.id u z =
        some A := hfind
    simp only [saveOp, resolveSaveAttempt, hfind2]
    rw [Prod.mk.injEq]
    refine ⟨?_, rfl⟩
    show ({ st with
        answers := upsertAnswers (upsertAnswers st.answers A.id entries) A.id entries } :
      Store) = { st with answers := upsertAnswers st.answers A.id entries }
    rw [hfix]

theorem save_upsert_idempotent_witness :
    (saveOp storeA1 "u" "z" (some "a1") [⟨"q1", ["A"]⟩] "n1" 7).2 = ⟨"a1", 1⟩ ∧
    (∀ e ∈ ([⟨"q1", ["A"]⟩] : List AnswerEntry),
      (saveOp storeA1 "u" "z" (some "a1") [⟨"q1", ["A"]⟩] "n1" 7).1.answers.filter
        (keyMatch "a1" e.questionId) = [⟨"a1", e.questionId, e.choiceIds.toFinset⟩]) ∧
    saveOp (saveOp storeA1 "u" "z" (some "a1") [⟨"q1", ["A"]⟩] "n1" 7).1 "u" "z"
        (some "a1") [⟨"q1", ["A"]⟩] "n2" 8 =
      ((saveOp storeA1 "u" "z" (some "a1") [⟨"q1", ["A"]⟩] "n1" 7).1, ⟨"a1", 1⟩) :=
  save_upsert_idempotent storeA1 "u" "z" rowA1 [⟨"q1", ["A"]⟩] "n1" "n2" 7 8
    (by decide) (by decide) (by decide) (by decide) (by decide) (by decide) (by decide)
